import Mathlib

/-!
Verification model for the duckai OpenAI-compatible tool-calling core.

The repository snapshot holds the test suites (`tests/openai-tools.test.ts`,
`tests/rate-limit-monitor.test.ts`, `tests/openai-library.test.ts`), the HTTP
entry point (`src/server.ts`), a Dockerfile and style notes, but not the
implementation modules they import (`src/tool-service.ts`,
`src/openai-service.ts`, `src/types.ts`).  The definitions below therefore
model the missing core from the specification (spec.md §3–§4.5, §7, §8), with
every behavioural choice cross-checked against the expectations the test files
state.  Definitions whose doc comment starts with `Modelled from the spec:`
stand for code that is absent from the snapshot.

JavaScript runtime pieces are embedded as follows: `JSON.parse` /
`JSON.stringify` become the executable codec `parseJson` / `strRender` over the
`Json` value type (numbers restricted to integers, `\uXXXX` escapes not
modelled; no claim exercises either); `Date.now()` becomes an explicit `ts :
Nat` argument; promise rejection becomes the `Except`/`Option` result types;
the backend `duckAI.chat` call becomes an explicit `BackendResult` argument.
-/

namespace Duckai

/-! ## Characters and scanning helpers -/

/-- The JSON insignificant whitespace characters. -/
def isWsChar (c : Char) : Bool :=
  c = ' ' ∨ c = '\n' ∨ c = '\t' ∨ c = '\r'

/-- Decimal digit test. -/
def isDigitChar (c : Char) : Bool :=
  '0' ≤ c ∧ c ≤ '9'

/-- Drop leading insignificant whitespace. -/
def skipWs : List Char → List Char
  | [] => []
  | c :: cs => if isWsChar c then skipWs cs else c :: cs

/-- Split a leading run of decimal digits from the rest. -/
def takeDigitsRun : List Char → List Char × List Char
  | [] => ([], [])
  | c :: cs =>
    if isDigitChar c then
      let p := takeDigitsRun cs
      (c :: p.1, p.2)
    else ([], c :: cs)

/-- Numeric value of a digit run. -/
def digitsVal (ds : List Char) : Nat :=
  ds.foldl (fun a c => a * 10 + (c.toNat - '0'.toNat)) 0

/-! ## JSON values

The value type for the embedded `JSON.parse` / `JSON.stringify`.  Numbers are
restricted to integers: the payloads that the tool-calling core produces and
consumes in the claims contain only strings, arrays and objects. -/

/-- A JSON value (integer numbers only). -/
inductive Json where
  | null : Json
  | bool (b : Bool) : Json
  | num (n : Int) : Json
  | str (s : String) : Json
  | arr (items : List Json) : Json
  | obj (fields : List (String × Json)) : Json
deriving Repr

/-- First binding of a key in an object's field list. -/
def getField : List (String × Json) → String → Option Json
  | [], _ => none
  | (k, v) :: ms, key => if k = key then some v else getField ms key

/-! ## Rendering (the `JSON.stringify` model)

Renders with no insignificant whitespace, as `JSON.stringify` does with no
spacing argument.  Strings escape the double quote, the backslash, and the
newline / tab / carriage-return controls; other characters are emitted
verbatim. -/

/-- Escape one character for a JSON string literal. -/
def escapeChar (c : Char) : List Char :=
  if c = '"' then ['\\', '"']
  else if c = '\\' then ['\\', '\\']
  else if c = '\n' then ['\\', 'n']
  else if c = '\t' then ['\\', 't']
  else if c = '\r' then ['\\', 'r']
  else [c]

/-- Escape every character of a string body. -/
def escapeChars : List Char → List Char
  | [] => []
  | c :: cs => escapeChar c ++ escapeChars cs

/-- A rendered string literal: quote, escaped body, quote. -/
def renderString (s : String) : List Char :=
  '"' :: (escapeChars s.data ++ ['"'])

/-- Decimal characters of an integer (minus sign, then digits). -/
def intChars (i : Int) : List Char :=
  (toString i).data

mutual

/-- Render a JSON value to characters, with no insignificant whitespace. -/
def renderJson : Json → List Char
  | .null => 'n' :: ['u', 'l', 'l']
  | .bool b => if b then 't' :: ['r', 'u', 'e'] else 'f' :: ['a', 'l', 's', 'e']
  | .num n => intChars n
  | .str s => renderString s
  | .arr items => '[' :: renderItems items
  | .obj fields => '{' :: renderFields fields

/-- Render array items followed by the closing bracket. -/
def renderItems : List Json → List Char
  | [] => [']']
  | [j] => renderJson j ++ [']']
  | j :: j' :: rest => renderJson j ++ ',' :: renderItems (j' :: rest)

/-- Render object members followed by the closing brace. -/
def renderFields : List (String × Json) → List Char
  | [] => ['}']
  | [(k, v)] => renderString k ++ ':' :: (renderJson v ++ ['}'])
  | (k, v) :: m :: rest => renderString k ++ ':' :: (renderJson v ++ ',' :: renderFields (m :: rest))

end

/-- Render a JSON value to a string (the `JSON.stringify` model). -/
def strRender (j : Json) : String :=
  String.mk (renderJson j)

/-! ## Parsing (the `JSON.parse` model)

A fuel-indexed recursive-descent parser over the character list.  The fuel
only bounds nesting of the mutual recursion; `parseJson` passes one more than
the input length, which the round-trip theorems show is always enough for
rendered values. -/

/-- Undo a string escape: the character the escape sequence denotes. -/
def unescapeChar (c : Char) : Option Char :=
  if c = '"' then some '"'
  else if c = '\\' then some '\\'
  else if c = '/' then some '/'
  else if c = 'n' then some '\n'
  else if c = 't' then some '\t'
  else if c = 'r' then some '\r'
  else none

/-- Parse a string body after the opening quote: the body's characters and
the remainder after the closing quote. -/
def parseStringBody : List Char → Option (List Char × List Char)
  | [] => none
  | c :: rest =>
    if c = '"' then some ([], rest)
    else if c = '\\' then
      match rest with
      | [] => none
      | e :: rest' =>
        match unescapeChar e with
        | some u => (parseStringBody rest').map (fun p => (u :: p.1, p.2))
        | none => none
    else (parseStringBody rest).map (fun p => (c :: p.1, p.2))

/-- Parse an integer literal: optional minus sign, then at least one digit. -/
def parseIntChars : List Char → Option (Int × List Char)
  | '-' :: cs =>
    match takeDigitsRun cs with
    | ([], _) => none
    | (ds, r) => some (-(digitsVal ds : Int), r)
  | cs =>
    match takeDigitsRun cs with
    | ([], _) => none
    | (ds, r) => some ((digitsVal ds : Int), r)

mutual

/-- Parse one JSON value (fuel-indexed; leading whitespace skipped). -/
def parseValue : Nat → List Char → Option (Json × List Char)
  | 0, _ => none
  | fuel + 1, cs =>
    match skipWs cs with
    | 'n' :: 'u' :: 'l' :: 'l' :: r => some (.null, r)
    | 't' :: 'r' :: 'u' :: 'e' :: r => some (.bool true, r)
    | 'f' :: 'a' :: 'l' :: 's' :: 'e' :: r => some (.bool false, r)
    | '"' :: r => (parseStringBody r).map (fun p => (.str (String.mk p.1), p.2))
    | '[' :: r =>
      match skipWs r with
      | [] => none
      | c :: r' =>
        if c = ']' then some (.arr [], r')
        else
          match parseItemsF fuel (c :: r') with
          | some (items, r2) => some (.arr items, r2)
          | none => none
    | '{' :: r =>
      match skipWs r with
      | [] => none
      | c :: r' =>
        if c = '}' then some (.obj [], r')
        else
          match parseFieldsF fuel (c :: r') with
          | some (fields, r2) => some (.obj fields, r2)
          | none => none
    | c :: r =>
      if c = '-' ∨ isDigitChar c then
        (parseIntChars (c :: r)).map (fun p => (Json.num p.1, p.2))
      else none
    | [] => none

/-- Parse one or more comma-separated array items up to the closing bracket. -/
def parseItemsF : Nat → List Char → Option (List Json × List Char)
  | 0, _ => none
  | fuel + 1, cs =>
    match parseValue fuel cs with
    | none => none
    | some (v, r) =>
      match skipWs r with
      | ',' :: r' =>
        match parseItemsF fuel r' with
        | some (vs, r2) => some (v :: vs, r2)
        | none => none
      | ']' :: r' => some ([v], r')
      | _ => none

/-- Parse one or more comma-separated object members up to the closing brace. -/
def parseFieldsF : Nat → List Char → Option (List (String × Json) × List Char)
  | 0, _ => none
  | fuel + 1, cs =>
    match skipWs cs with
    | '"' :: r =>
      match parseStringBody r with
      | none => none
      | some (key, r1) =>
        match skipWs r1 with
        | ':' :: r2 =>
          match parseValue fuel r2 with
          | none => none
          | some (v, r3) =>
            match skipWs r3 with
            | ',' :: r4 =>
              match parseFieldsF fuel r4 with
              | some (ms, r5) => some ((String.mk key, v) :: ms, r5)
              | none => none
            | '}' :: r4 => some ([(String.mk key, v)], r4)
            | _ => none
        | _ => none
    | _ => none

end

/-- Parse a complete JSON document from characters: the whole input must be
consumed up to trailing whitespace. -/
def parseJsonChars (cs : List Char) : Option Json :=
  match parseValue (cs.length + 1) cs with
  | some (j, rest) => if (skipWs rest).isEmpty then some j else none
  | none => none

/-- The `JSON.parse` model: `some` on success, `none` where `JSON.parse`
throws. -/
def parseJson (s : String) : Option Json :=
  parseJsonChars s.data

/-! ## Codec round-trip

Parsing a rendered value recovers it.  The lemmas are stated for number-free
values — every payload the tool-calling core serialises (tool-call envelopes,
error payloads) is built from strings, arrays and objects only — which spares
a verified decimal printer. -/

mutual

/-- No `num` node anywhere in the value. -/
def numFree : Json → Bool
  | .null => true
  | .bool _ => true
  | .num _ => false
  | .str _ => true
  | .arr items => numFreeItems items
  | .obj fields => numFreeFields fields

/-- No `num` node in any item. -/
def numFreeItems : List Json → Bool
  | [] => true
  | j :: js => numFree j && numFreeItems js

/-- No `num` node in any member value. -/
def numFreeFields : List (String × Json) → Bool
  | [] => true
  | (_, v) :: ms => numFree v && numFreeFields ms

end


/-! ## Tool-calling data model (spec.md §3) -/

/-- Modelled from the spec: a `ToolCall` (`src/types.ts` is absent from the
snapshot).  The constant `type: "function"` member is implicit; `function.name`
and `function.arguments` are flattened to `name` / `arguments`.  `arguments` is
always a JSON-encoded string (spec §3 normalization invariant). -/
structure ToolCall where
  id : String
  name : String
  arguments : String
deriving DecidableEq, Repr

/-- Modelled from the spec: one parameter of a tool's JSON-schema `parameters`
object (name, declared type, whether listed in `required`). -/
structure ToolParam where
  name : String
  type : String := "string"
  required : Bool := true
deriving DecidableEq, Repr

/-- Modelled from the spec: a `ToolDefinition`'s `function` member (the outer
`type: "function"` tag is implicit; validation of it is out of the claims'
scope). -/
structure ToolFunction where
  name : String
  description : String := ""
  parameters : List ToolParam := []
deriving DecidableEq, Repr

/-- Modelled from the spec: the request's `tool_choice` variant
(`"auto" | "none" | "required" | \x7btype: "function", function: \x7bname\x7d\x7d`);
an absent `tool_choice` is `auto`. -/
inductive ToolChoice where
  | auto : ToolChoice
  | none : ToolChoice
  | required : ToolChoice
  | fn (name : String) : ToolChoice
deriving DecidableEq, Repr

/-- Message roles. -/
inductive Role where
  | system : Role
  | user : Role
  | assistant : Role
  | tool : Role
deriving DecidableEq, Repr

/-- Modelled from the spec: a request message, reduced to the members the
claims need (role and text content). -/
structure Message where
  role : Role
  content : Option String := Option.none
deriving DecidableEq, Repr

/-- Modelled from the spec: a chat-completion request, reduced to the members
the claims need. -/
structure ChatCompletionRequest where
  messages : List Message
  tools : List ToolFunction := []
  toolChoice : ToolChoice := ToolChoice.auto
deriving DecidableEq, Repr

/-- The `finish_reason` of an assembled completion. -/
inductive FinishReason where
  | stop : FinishReason
  | length : FinishReason
  | toolCalls : FinishReason
deriving DecidableEq, Repr

/-- The assembled assistant message: `tool_calls = []` models an absent
`tool_calls` member. -/
structure AssistantMessage where
  content : Option String
  tool_calls : List ToolCall := []
deriving DecidableEq, Repr

/-- The assembled completion, reduced to its one choice's message and finish
reason (`id`/`object`/`created`/`model`/`usage` are boilerplate no claim
constrains). -/
structure ChatCompletion where
  message : AssistantMessage
  finish_reason : FinishReason
deriving DecidableEq, Repr

/-- Modelled from the spec: the outcome of the backend collaborator's
`duckAI.chat` call — returned text (with a flag for a signalled truncation) or
a thrown error's message. -/
inductive BackendResult where
  | ok (text : String) (truncated : Bool) : BackendResult
  | fail (msg : String) : BackendResult
deriving DecidableEq, Repr

/-! ## Response Parser (spec.md §4.2) -/

/-- The literal marker whose presence `detectFunctionCalls` scans for. -/
def toolCallsKey : List Char := "\"tool_calls\"".data

/-- After the marker: skip whitespace and colon characters, then require an
opening array bracket. -/
def bridgeToBracket : List Char → Bool
  | [] => false
  | c :: cs => if c = '[' then true else if isWsChar c ∨ c = ':' then bridgeToBracket cs else false

/-- Modelled from the spec: the raw-text pattern test — the literal substring
`"tool_calls"` followed (after optional whitespace and a colon) by `[`. -/
def hasToolCallsMarker : List Char → Bool
  | [] => false
  | c :: cs =>
    (decide ((c :: cs).take 12 = toolCallsKey) && bridgeToBracket ((c :: cs).drop 12))
    || hasToolCallsMarker cs

/-- The `tool_calls` member of a parsed response object, when it is an array. -/
def toolCallsOf : Json → Option (List Json)
  | .obj fields =>
    match getField fields "tool_calls" with
    | some (.arr entries) => some entries
    | _ => Option.none
  | _ => Option.none

/-- Modelled from the spec (§4.2, `tool-service.ts` absent): true iff the text
parses as JSON carrying a non-empty `tool_calls` array, or fails to parse but
contains the literal `"tool_calls"`-then-`[` pattern (truncated mid-stream
text).  False for a parsed empty array (tested in `openai-tools.test.ts`,
"should handle empty tool calls array"). -/
def detectFunctionCalls (text : String) : Bool :=
  match parseJson text with
  | some j =>
    match toolCallsOf j with
    | some entries => !entries.isEmpty
    | Option.none => false
  | Option.none => hasToolCallsMarker text.data

/-- The fields of an object value (`[]` for any other value). -/
def objFieldsOf : Json → List (String × Json)
  | .obj ms => ms
  | _ => []

/-- The fields of an entry's `function` member. -/
def fnFieldsOf (e : Json) : List (String × Json) :=
  match getField (objFieldsOf e) "function" with
  | some (.obj fms) => fms
  | _ => []

/-- Modelled from the spec: normalization of one `tool_calls` entry.  A
missing (or non-string) `id` is synthesized as `call_<timestamp>_<index>`;
string-valued `arguments` pass through, any other JSON value is stringified;
a missing `arguments` member defaults to the empty-object string (the spec
leaves this case unstated). -/
def normalizeEntry (ts idx : Nat) (entry : Json) : ToolCall :=
  { id :=
      match getField (objFieldsOf entry) "id" with
      | some (.str s) => s
      | _ => "call_" ++ toString ts ++ "_" ++ toString idx
    name := match getField (fnFieldsOf entry) "name" with | some (.str s) => s | _ => ""
    arguments :=
      match getField (fnFieldsOf entry) "arguments" with
      | some (.str s) => s
      | some j => strRender j
      | Option.none => strRender (Json.obj []) }

/-- Normalize every entry, numbering from `idx`. -/
def normalizeEntries (ts : Nat) : Nat → List Json → List ToolCall
  | _, [] => []
  | idx, e :: es => normalizeEntry ts idx e :: normalizeEntries ts (idx + 1) es

/-- Prefix match: the remainder after the expected characters. -/
def expectChars : List Char → List Char → Option (List Char)
  | [], cs => some cs
  | _ :: _, [] => Option.none
  | p :: ps, c :: cs => if c = p then expectChars ps cs else Option.none

/-- Modelled from the spec (§4.2): the narrow fallback pattern at one
position — a single `"function": \x7b"name": "...", "arguments": "..."\x7d`
pair, returning the name and arguments bodies. -/
def fallbackAt (cs : List Char) : Option (String × String) :=
  (expectChars "\"function\"".data cs).bind fun cs1 =>
  (expectChars [':'] (skipWs cs1)).bind fun cs2 =>
  (expectChars ['{'] (skipWs cs2)).bind fun cs3 =>
  (expectChars "\"name\"".data (skipWs cs3)).bind fun cs4 =>
  (expectChars [':'] (skipWs cs4)).bind fun cs5 =>
  (expectChars ['"'] (skipWs cs5)).bind fun cs6 =>
  (parseStringBody cs6).bind fun pn =>
  (expectChars [','] (skipWs pn.2)).bind fun cs7 =>
  (expectChars "\"arguments\"".data (skipWs cs7)).bind fun cs8 =>
  (expectChars [':'] (skipWs cs8)).bind fun cs9 =>
  (expectChars ['"'] (skipWs cs9)).bind fun cs10 =>
  (parseStringBody cs10).bind fun pa =>
  (expectChars ['}'] (skipWs pa.2)).map fun _ =>
  (String.mk pn.1, String.mk pa.1)

/-- Scan every position for the fallback pattern; the first match becomes a
call with a synthesized id. -/
def fallbackScan (ts : Nat) : List Char → Option ToolCall
  | [] => Option.none
  | c :: cs =>
    match fallbackAt (c :: cs) with
    | some p => some ⟨"call_" ++ toString ts ++ "_0", p.1, p.2⟩
    | Option.none => fallbackScan ts cs

/-- Modelled from the spec (§4.2, `tool-service.ts` absent): strict JSON parse
first — a `tool_calls` array is normalized entry by entry; a parse without the
member yields nothing; on parse failure the narrow single-pair fallback
pattern is tried; otherwise the empty sequence.  `ts` models `Date.now()`. -/
def extractFunctionCalls (text : String) (ts : Nat) : List ToolCall :=
  match parseJson text with
  | some j =>
    match toolCallsOf j with
    | some entries => normalizeEntries ts 0 entries
    | Option.none => []
  | Option.none =>
    match fallbackScan ts text.data with
    | some c => [c]
    | Option.none => []

/-! ## Tool Executor (spec.md §4.4) -/

/-- Modelled from the spec: the behaviour of a registered implementation on
parsed arguments — return a string, return a non-string JSON value, throw an
`Error` carrying a message, or throw a non-`Error` value. -/
inductive FnOutcome where
  | retStr (s : String) : FnOutcome
  | retVal (j : Json) : FnOutcome
  | throwErr (msg : String) : FnOutcome
  | throwRaw : FnOutcome

/-- The registry of built-in plus dynamically registered implementations. -/
abbrev FunctionRegistry := List (String × (Json → FnOutcome))

/-- First implementation registered under the name. -/
def lookupFn : FunctionRegistry → String → Option (Json → FnOutcome)
  | [], _ => Option.none
  | (k, f) :: rest, name => if k = name then some f else lookupFn rest name

/-- A JSON error payload `\x7b"error": msg\x7d` as a string. -/
def errPayload (msg : String) : String :=
  strRender (Json.obj [("error", Json.str msg)])

/-- Modelled from the spec (§4.4, `tool-service.ts` absent): dispatch a tool
call.  Unknown name, unparseable arguments and thrown values all resolve to an
error payload; a returned string passes through verbatim; any other returned
value is JSON-stringified. -/
def executeFunctionCall (call : ToolCall) (reg : FunctionRegistry) : String :=
  match lookupFn reg call.name with
  | Option.none => errPayload ("Function '" ++ call.name ++ "' not found")
  | some impl =>
    match parseJson call.arguments with
    | Option.none => errPayload "Error executing function: invalid JSON in arguments"
    | some args =>
      match impl args with
      | .retStr s => s
      | .retVal j => strRender j
      | .throwErr m => errPayload m
      | .throwRaw => errPayload "Unknown error"

/-! ## Fallback Synthesizer (spec.md §4.3) -/

/-- Content of the latest `user` message, or `""`. -/
def lastUserContent (ms : List Message) : String :=
  match ms.reverse.find? (fun m => m.role == Role.user) with
  | some m => m.content.getD ""
  | Option.none => ""

/-- Arithmetic operator characters. -/
def isArithOp (c : Char) : Bool := c = '+' ∨ c = '-' ∨ c = '*' ∨ c = '/'

/-- Split a leading whitespace run from the rest. -/
def splitWsRun : List Char → List Char × List Char
  | [] => ([], [])
  | c :: cs =>
    if isWsChar c then
      let p := splitWsRun cs
      (c :: p.1, p.2)
    else ([], c :: cs)

/-- The arithmetic sub-expression `digits op digits` starting exactly here. -/
def arithAt (cs : List Char) : Option (List Char) :=
  match takeDigitsRun cs with
  | ([], _) => Option.none
  | (d1, r1) =>
    let w1 := splitWsRun r1
    match w1.2 with
    | [] => Option.none
    | op :: r3 =>
      if isArithOp op then
        let w2 := splitWsRun r3
        match takeDigitsRun w2.2 with
        | ([], _) => Option.none
        | (d2, _) => some (d1 ++ w1.1 ++ op :: (w2.1 ++ d2))
      else Option.none

/-- Modelled from the spec (§4.3): the first arithmetic sub-expression of the
message (two integers joined by one operator), matched left to right. -/
def extractArith : List Char → Option String
  | [] => Option.none
  | c :: cs =>
    match arithAt (c :: cs) with
    | some m => some (String.mk m)
    | Option.none => extractArith cs

/-- The remainder until sentence punctuation. -/
def untilPunct (cs : List Char) : List Char :=
  cs.takeWhile (fun c => !(c = '?' ∨ c = '.' ∨ c = ',' ∨ c = '!'))

/-- The remainder after the first occurrence of the marker. -/
def findAfterMarker (marker : List Char) : List Char → Option (List Char)
  | [] => Option.none
  | c :: cs =>
    match expectChars marker (c :: cs) with
    | some r => some r
    | Option.none => findAfterMarker marker cs

/-- Modelled from the spec (§4.3): the trailing noun phrase after ` in `, for
location-like parameters. -/
def extractLocation (cs : List Char) : Option String :=
  (findAfterMarker " in ".data cs).map (fun r => String.mk (untilPunct r))

/-- Modelled from the spec (§4.3): the per-parameter heuristics — an
arithmetic sub-expression for an expression-like parameter, a location phrase
for a location-like one. -/
def paramHeuristic (msg : String) (p : ToolParam) : Option (String × Json) :=
  if p.name = "expression" then (extractArith msg.data).map (fun e => (p.name, Json.str e))
  else if p.name = "location" then (extractLocation msg.data).map (fun l => (p.name, Json.str l))
  else Option.none

/-- Modelled from the spec (§4.3): synthesized arguments — every parameter a
heuristic matches, `\x7b\x7d` when none does. -/
def synthesizeArgs (t : ToolFunction) (msg : String) : String :=
  strRender (Json.obj (t.parameters.filterMap (paramHeuristic msg)))

/-- The word characters of scoring. -/
def isWordChar (c : Char) : Bool := c.isAlpha ∨ c.isDigit

/-- Accumulate lowercased words. -/
def wordsAux : List Char → List Char → List String
  | [], acc => if acc.isEmpty then [] else [String.mk acc.reverse]
  | c :: cs, acc =>
    if isWordChar c then wordsAux cs (c.toLower :: acc)
    else if acc.isEmpty then wordsAux cs []
    else String.mk acc.reverse :: wordsAux cs []

/-- The lowercased words of a string, split on non-word characters. -/
def lowerWords (s : String) : List String := wordsAux s.data []

/-- How many of the message's words occur in the tool's words. -/
def countOverlap (mw tw : List String) : Nat :=
  (mw.filter (fun w => tw.contains w)).length

/-- A tool's searchable text: its name and description. -/
def toolText (t : ToolFunction) : String := t.name ++ " " ++ t.description

/-- A calculation-flavoured tool (name or description speaks of calculation
or mathematics). -/
def isCalcLike (t : ToolFunction) : Bool :=
  (lowerWords (toolText t)).any (fun w => w.take 4 = "calc" ∨ w.take 4 = "math")

/-- Arithmetic wording in the message (an arithmetic sub-expression or a
computation verb). -/
def hasArithHint (msg : String) : Bool :=
  (extractArith msg.data).isSome
  || (lowerWords msg).contains "compute" || (lowerWords msg).contains "calculate"

/-- Modelled from the spec (§4.3): keyword-overlap score of one tool against
the user message, with the arithmetic-wording boost for calculation tools. -/
def scoreTool (t : ToolFunction) (msg : String) : Nat :=
  countOverlap (lowerWords msg) (lowerWords (toolText t))
  + (if hasArithHint msg && isCalcLike t then 1 else 0)

/-- Fold the candidates, replacing the best so far only on a strictly higher
score (so an earlier declaration wins ties). -/
def pickBest (msg : String) (b : ToolFunction) (ts : List ToolFunction) : ToolFunction :=
  ts.foldl (fun best u => if scoreTool best msg < scoreTool u msg then u else best) b

/-- Modelled from the spec (§4.3): pick the highest-scoring tool, the first
declared tool winning ties; `none` only when no tool is declared. -/
def selectTool (tools : List ToolFunction) (msg : String) : Option ToolFunction :=
  match tools with
  | [] => Option.none
  | t :: ts => some (pickBest msg t ts)

/-- First declared tool with the name. -/
def findTool (tools : List ToolFunction) (name : String) : Option ToolFunction :=
  tools.find? (fun t => t.name == name)

/-- The id a synthesized fallback call carries (`call_<timestamp>_<suffix>`). -/
def fallbackCallId (ts : Nat) : String := "call_" ++ toString ts ++ "_0"

/-- Modelled from the spec (§4.3): fallback synthesis.  A specific-function
choice names the call directly — the named function's existence among the
declared tools is not checked, only its parameters (when found) feed the
argument heuristics.  `required` picks the best-scoring declared tool. -/
def synthesizeToolCall (req : ChatCompletionRequest) (ts : Nat) : Option ToolCall :=
  let msg := lastUserContent req.messages
  match req.toolChoice with
  | .fn name =>
    some ⟨fallbackCallId ts, name,
      match findTool req.tools name with
      | some t => synthesizeArgs t msg
      | Option.none => strRender (Json.obj [])⟩
  | .required =>
    (selectTool req.tools msg).map (fun t => ⟨fallbackCallId ts, t.name, synthesizeArgs t msg⟩)
  | _ => Option.none

/-! ## Response Assembler and completion pipeline (spec.md §4.5, §2 flow) -/

/-- Whether the tool-choice policy mandates at least one call. -/
def mandatoryChoice : ToolChoice → Bool
  | .required => true
  | .fn _ => true
  | _ => false

/-- Modelled from the spec (tested in `openai-tools.test.ts`,
"shouldUseFunctionCalling"): the tool flow runs only when tools are declared
and `tool_choice` is not `"none"`. -/
def shouldUseFunctionCalling (tools : List ToolFunction) (tc : ToolChoice) : Bool :=
  !tools.isEmpty && !(tc == ToolChoice.none)

/-- Modelled from the spec (§4.5): assemble the one-choice completion.  With
tool calls the message's content is null and the finish reason `tool_calls`;
otherwise the text is the content and the finish reason `stop` (`length` on a
signalled truncation). -/
def assembleCompletion (text : String) (truncated : Bool) (calls : List ToolCall) :
    ChatCompletion :=
  if calls.isEmpty then
    ⟨⟨some text, []⟩, if truncated then .length else .stop⟩
  else ⟨⟨Option.none, calls⟩, .toolCalls⟩

/-- Modelled from the spec (§2 flow): extract calls from the backend text;
when none survived and the policy mandates one, synthesize; assemble. -/
def runToolFlow (req : ChatCompletionRequest) (text : String) (truncated : Bool) (ts : Nat) :
    ChatCompletion :=
  let calls := extractFunctionCalls text ts
  let calls :=
    if calls.isEmpty && mandatoryChoice req.toolChoice then
      match synthesizeToolCall req ts with
      | some c => [c]
      | Option.none => calls
    else calls
  assembleCompletion text truncated calls

/-- Modelled from the spec (§2, §4.3, §7; `openai-service.ts` absent):
`createChatCompletion` against an explicit backend outcome.  Without an active
tool flow the text passes through; a backend failure is suppressed and
replaced by fallback synthesis exactly when the active policy mandates a call,
and propagated to the caller otherwise. -/
def createChatCompletion (req : ChatCompletionRequest) (backend : BackendResult) (ts : Nat) :
    Except String ChatCompletion :=
  match backend with
  | .ok text truncated =>
    if shouldUseFunctionCalling req.tools req.toolChoice then
      .ok (runToolFlow req text truncated ts)
    else .ok (assembleCompletion text truncated [])
  | .fail msg =>
    if shouldUseFunctionCalling req.tools req.toolChoice && mandatoryChoice req.toolChoice then
      .ok (runToolFlow req "" false ts)
    else .error msg

/-! ## Streaming (spec.md §4.5) -/

/-- A streamed chunk's delta. -/
structure Delta where
  role : Option String := Option.none
  content : Option String := Option.none
  tool_calls : List ToolCall := []
deriving DecidableEq, Repr

/-- One `data:` chunk of the stream. -/
structure StreamChunk where
  delta : Delta
  finish_reason : Option FinishReason := Option.none
deriving DecidableEq, Repr

/-- One server-sent event: a `data: <json>` chunk or the `data: [DONE]`
sentinel. -/
inductive StreamEvent where
  | data (c : StreamChunk) : StreamEvent
  | done : StreamEvent
deriving DecidableEq, Repr

/-- Split text after every space, so the pieces concatenate back to it. -/
def chunkSplit : List Char → List Char → List (List Char)
  | [], acc => if acc.isEmpty then [] else [acc.reverse]
  | c :: cs, acc =>
    if c = ' ' then (c :: acc).reverse :: chunkSplit cs []
    else chunkSplit cs (c :: acc)

/-- The synthetic re-chunking of the completed content. -/
def chunkPieces (s : String) : List String :=
  (chunkSplit s.data []).map String.mk

/-- The first chunk: the assistant role, nothing else. -/
def roleChunk : StreamEvent :=
  .data ⟨⟨some "assistant", Option.none, []⟩, Option.none⟩

/-- The last data chunk: an empty delta carrying the finish reason. -/
def finishChunk (fr : FinishReason) : StreamEvent :=
  .data ⟨⟨Option.none, Option.none, []⟩, some fr⟩

/-- The middle of the stream: content re-chunked piece by piece, or the full
`tool_calls` array in one chunk. -/
def bodyChunks (comp : ChatCompletion) : List StreamEvent :=
  if comp.message.tool_calls.isEmpty then
    (chunkPieces (comp.message.content.getD "")).map
      (fun p => .data ⟨⟨Option.none, some p, []⟩, Option.none⟩)
  else [.data ⟨⟨Option.none, Option.none, comp.message.tool_calls⟩, Option.none⟩]

/-- Modelled from the spec (§4.5): the ordered synthetic event sequence for a
completed response — role chunk, body, finish chunk, `[DONE]` sentinel. -/
def buildStream (comp : ChatCompletion) : List StreamEvent :=
  roleChunk :: (bodyChunks comp ++ [finishChunk comp.finish_reason, .done])

/-- Modelled from the spec: `createChatCompletionStream` re-chunks the very
completion `createChatCompletion` assembles. -/
def createChatCompletionStream (req : ChatCompletionRequest) (backend : BackendResult)
    (ts : Nat) : Except String (List StreamEvent) :=
  (createChatCompletion req backend ts).map buildStream

/-- The concatenation of all `delta.content` fragments, in emission order. -/
def streamContentChars (evs : List StreamEvent) : List Char :=
  evs.foldr
    (fun e acc =>
      match e with
      | .data ch => (ch.delta.content.getD "").data ++ acc
      | .done => acc)
    []

/-! ## Claim-support definitions

Accessors the claim statements use, the serialization the round-trip claim
re-extracts, and concrete sample inputs (taken from the repository's test
files) at which the witnesses instantiate the theorems. -/

/-- The truncation flag the backend signalled (`false` for a failure). -/
def backendTruncated : BackendResult → Bool
  | .ok _ tr => tr
  | .fail _ => false

/-- The outcome is a completion carrying at least one tool call. -/
def okHasCalls : Except String ChatCompletion → Bool
  | .ok comp => !comp.message.tool_calls.isEmpty
  | .error _ => false

/-- The outcome carries no tool calls (a propagated error carries none). -/
def okNoCalls : Except String ChatCompletion → Bool
  | .ok comp => comp.message.tool_calls.isEmpty
  | .error _ => true

/-- The `error` member of a string's parsed JSON object form. -/
def parsedErrorField (s : String) : Option Json :=
  match parseJson s with
  | some (.obj ms) => getField ms "error"
  | _ => Option.none

/-- The `tool_calls` entry a `ToolCall` serialises to. -/
def toolCallJson (c : ToolCall) : Json :=
  Json.obj [("id", Json.str c.id), ("type", Json.str "function"),
    ("function", Json.obj [("name", Json.str c.name), ("arguments", Json.str c.arguments)])]

/-- The `tool_calls` payload of a call list. -/
def toolCallsPayload (calls : List ToolCall) : Json :=
  Json.obj [("tool_calls", Json.arr (calls.map toolCallJson))]

/-- Serialize a call list into `tool_calls` JSON payload text. -/
def serializeToolCalls (calls : List ToolCall) : String :=
  strRender (toolCallsPayload calls)

/-- The test suites' `get_current_time` tool. -/
def timeToolSample : ToolFunction := ⟨"get_current_time", "Get the current time", []⟩

/-- The test suites' `calculate` tool. -/
def calcToolSample : ToolFunction :=
  ⟨"calculate", "Perform mathematical calculations", [⟨"expression", "string", true⟩]⟩

/-- The spec §8 scenario: tool set `[calculate]`, the arithmetic user message,
`tool_choice = "required"`. -/
def calcScenarioRequest : ChatCompletionRequest :=
  ⟨[⟨Role.user, some "Calculate 15 * 8 + 42"⟩], [calcToolSample], ToolChoice.required⟩

/-- The call the §8 scenario synthesizes at timestamp 5. -/
def calcScenarioCall : ToolCall :=
  ⟨"call_5_0", "calculate", "\x7b\"expression\":\"15 * 8\"\x7d"⟩

/-- A `tool_choice = "required"` request over both sample tools. -/
def requiredRequestSample : ChatCompletionRequest :=
  ⟨[⟨Role.user, some "What time is it?"⟩], [timeToolSample, calcToolSample],
    ToolChoice.required⟩

/-- The completion `requiredRequestSample` assembles from empty backend text
at timestamp 3. -/
def requiredComp3 : ChatCompletion :=
  ⟨⟨Option.none, [⟨"call_3_0", "get_current_time", "\x7b\x7d"⟩]⟩, FinishReason.toolCalls⟩

/-- The non-existent-function `tool_choice` request of the test suite. -/
def namedChoiceRequestSample : ChatCompletionRequest :=
  ⟨[⟨Role.user, some "Test"⟩], [timeToolSample, calcToolSample],
    ToolChoice.fn "non_existent_function"⟩

/-- A plain request with no tools, for the streaming witness. -/
def plainRequestSample : ChatCompletionRequest :=
  ⟨[⟨Role.user, some "Hi"⟩], [], ToolChoice.auto⟩

/-- The completion `plainRequestSample` assembles from the sample text. -/
def plainCompSample : ChatCompletion :=
  ⟨⟨some "Hello there friend", []⟩, FinishReason.stop⟩

/-- The malformed-JSON test input: a `tool_calls` array truncated mid-object. -/
def truncatedSample : String :=
  "\x7b\"tool_calls\": [\x7b\"id\": \"call_1\", \"type\": \"function\", \"function\": \x7b\"name\": \"test"

/-- Invalid JSON carrying both the `tool_calls` marker and a complete narrow
fallback `name`/`arguments` pair. -/
def fallbackMatchSample : String :=
  "\"tool_calls\": [ \"function\": \x7b\"name\": \"f\", \"arguments\": \"x\"\x7d ]"

/-- Strict-JSON extraction input with a missing `id` and object-valued
`arguments` (from the tool-service tests). -/
def normalizeSample : String :=
  "\x7b\"tool_calls\":[\x7b\"type\":\"function\",\"function\":\x7b\"name\":\"calculate\",\"arguments\":\x7b\"key\":\"value\"\x7d\x7d\x7d]\x7d"

/-- The entry list `normalizeSample` parses to. -/
def normalizeSampleEntries : List Json :=
  [Json.obj [("type", Json.str "function"),
    ("function", Json.obj [("name", Json.str "calculate"),
      ("arguments", Json.obj [("key", Json.str "value")])])]]

/-- The top-level fields `normalizeSample` parses to. -/
def normalizeSampleFields : List (String × Json) :=
  [("tool_calls", Json.arr normalizeSampleEntries)]

/-- A two-call list mirroring the multiple-calls test. -/
def roundtripCallsSample : List ToolCall :=
  [⟨"call_1", "func1", "\x7b\"arg1\": \"value1\"\x7d"⟩,
   ⟨"call_2", "func2", "\x7b\"arg2\": \"value2\"\x7d"⟩]

/-- A one-entry registry, for executor evaluations. -/
def registrySample : FunctionRegistry :=
  [("greet", fun _ => FnOutcome.retStr "Hello World!")]

/-! ## Codec round-trip proofs -/

theorem parseStringBody_escapeChar (c : Char) (tail : List Char) :
    parseStringBody (escapeChar c ++ tail) =
      (parseStringBody tail).map (fun p => (c :: p.1, p.2)) := by
  by_cases h1 : c = '"'
  · subst h1
    rw [show escapeChar '"' ++ tail = '\\' :: '"' :: tail from by simp [escapeChar]]
    rw [parseStringBody.eq_def]
    simp [unescapeChar]
  · by_cases h2 : c = '\\'
    · subst h2
      rw [show escapeChar '\\' ++ tail = '\\' :: '\\' :: tail from by simp [escapeChar]]
      rw [parseStringBody.eq_def]
      simp [unescapeChar]
    · by_cases h3 : c = '\n'
      · subst h3
        rw [show escapeChar '\n' ++ tail = '\\' :: 'n' :: tail from by simp [escapeChar]]
        rw [parseStringBody.eq_def]
        simp [unescapeChar]
      · by_cases h4 : c = '\t'
        · subst h4
          rw [show escapeChar '\t' ++ tail = '\\' :: 't' :: tail from by simp [escapeChar]]
          rw [parseStringBody.eq_def]
          simp [unescapeChar]
        · by_cases h5 : c = '\r'
          · subst h5
            rw [show escapeChar '\r' ++ tail = '\\' :: 'r' :: tail from by simp [escapeChar]]
            rw [parseStringBody.eq_def]
            simp [unescapeChar]
          · rw [show escapeChar c ++ tail = c :: tail from by
                simp [escapeChar, h1, h2, h3, h4, h5]]
            rw [parseStringBody.eq_def]
            simp [h1, h2]

theorem parseStringBody_escapeChars (l : List Char) : ∀ tail : List Char,
    parseStringBody (escapeChars l ++ '"' :: tail) = some (l, tail) := by
  induction l with
  | nil =>
    intro tail
    rw [show escapeChars [] ++ '"' :: tail = '"' :: tail from by simp [escapeChars]]
    rw [parseStringBody.eq_def]
    simp
  | cons c cs ih =>
    intro tail
    rw [show escapeChars (c :: cs) ++ '"' :: tail
          = escapeChar c ++ (escapeChars cs ++ '"' :: tail) from by
        simp [escapeChars]]
    rw [parseStringBody_escapeChar, ih]
    rfl

/-- A rendered number-free value starts with a non-whitespace character that
closes nothing. -/
theorem renderJson_head (j : Json) (h : numFree j = true) :
    ∃ c t, renderJson j = c :: t ∧ isWsChar c = false ∧ c ≠ ']' ∧ c ≠ '}' := by
  cases j with
  | null =>
    exact ⟨'n', ['u', 'l', 'l'], by simp [renderJson], by decide, by decide, by decide⟩
  | bool b =>
    cases b with
    | true =>
      exact ⟨'t', ['r', 'u', 'e'], by simp [renderJson], by decide, by decide, by decide⟩
    | false =>
      exact ⟨'f', ['a', 'l', 's', 'e'], by simp [renderJson], by decide, by decide, by decide⟩
  | num n => exact absurd h (by simp [numFree])
  | str s =>
    exact ⟨'"', escapeChars s.data ++ ['"'], by simp [renderJson, renderString],
      by decide, by decide, by decide⟩
  | arr items =>
    exact ⟨'[', renderItems items, by simp [renderJson], by decide, by decide, by decide⟩
  | obj fields =>
    exact ⟨'{', renderFields fields, by simp [renderJson], by decide, by decide, by decide⟩

/-- The rendering of a nonempty item list starts with its first value's
rendering. -/
theorem renderItems_cons (j : Json) (js : List Json) :
    ∃ tail, renderItems (j :: js) = renderJson j ++ tail := by
  cases js with
  | nil => exact ⟨[']'], by simp [renderItems]⟩
  | cons x xs => exact ⟨',' :: renderItems (x :: xs), by simp [renderItems]⟩

/-- `skipWs` keeps a list headed by a non-whitespace character. -/
theorem skipWs_cons_of_not (c : Char) (cs : List Char) (h : isWsChar c = false) :
    skipWs (c :: cs) = c :: cs := by
  simp [skipWs, h]

/-- One-step unfolding of `parseValue`'s array branch. -/
theorem parseValue_bracket_step (f : Nat) (r : List Char) :
    parseValue (f + 1) ('[' :: r)
      = (match skipWs r with
         | [] => none
         | c :: r' =>
           if c = ']' then some (.arr [], r')
           else
             match parseItemsF f (c :: r') with
             | some (items, r2) => some (.arr items, r2)
             | none => none) := rfl

/-- One-step unfolding of `parseValue`'s object branch. -/
theorem parseValue_brace_step (f : Nat) (r : List Char) :
    parseValue (f + 1) ('{' :: r)
      = (match skipWs r with
         | [] => none
         | c :: r' =>
           if c = '}' then some (.obj [], r')
           else
             match parseFieldsF f (c :: r') with
             | some (fields, r2) => some (.obj fields, r2)
             | none => none) := rfl

/-- One-step unfolding of `parseItemsF` at successor fuel. -/
theorem parseItemsF_step (f : Nat) (cs : List Char) :
    parseItemsF (f + 1) cs
      = (match parseValue f cs with
         | none => none
         | some (v, r) =>
           match skipWs r with
           | ',' :: r' =>
             match parseItemsF f r' with
             | some (vs, r2) => some (v :: vs, r2)
             | none => none
           | ']' :: r' => some ([v], r')
           | _ => none) := rfl

/-- One-step unfolding of `parseFieldsF` at successor fuel. -/
theorem parseFieldsF_step (f : Nat) (cs : List Char) :
    parseFieldsF (f + 1) cs
      = (match skipWs cs with
         | '"' :: r =>
           match parseStringBody r with
           | none => none
           | some (key, r1) =>
             match skipWs r1 with
             | ':' :: r2 =>
               match parseValue f r2 with
               | none => none
               | some (v, r3) =>
                 match skipWs r3 with
                 | ',' :: r4 =>
                   match parseFieldsF f r4 with
                   | some (ms, r5) => some ((String.mk key, v) :: ms, r5)
                   | none => none
                 | '}' :: r4 => some ([(String.mk key, v)], r4)
                 | _ => none
             | _ => none
         | _ => none) := rfl

mutual

theorem rtValue : ∀ (j : Json) (fuel : Nat) (rest : List Char),
    numFree j = true → (renderJson j).length < fuel →
    parseValue fuel (renderJson j ++ rest) = some (j, rest)
  | .null, fuel, rest, _, hf => by
    cases fuel with
    | zero => simp [renderJson] at hf
    | succ f => simp [renderJson, parseValue, skipWs, isWsChar]
  | .bool b, fuel, rest, _, hf => by
    cases fuel with
    | zero => cases b <;> simp [renderJson] at hf
    | succ f => cases b <;> simp [renderJson, parseValue, skipWs, isWsChar]
  | .num n, fuel, rest, hn, hf => by simp [numFree] at hn
  | .str s, fuel, rest, _, hf => by
    cases fuel with
    | zero => exact absurd hf (Nat.not_lt_zero _)
    | succ f =>
      obtain ⟨l⟩ := s
      have harg : renderJson (.str (String.mk l)) ++ rest
          = '"' :: (escapeChars l ++ '"' :: rest) := by
        simp [renderJson, renderString]
      rw [harg]
      simp [parseValue, skipWs, isWsChar, parseStringBody_escapeChars]
  | .arr [], fuel, rest, _, hf => by
    cases fuel with
    | zero => simp [renderJson] at hf
    | succ f =>
      have harg : renderJson (.arr []) ++ rest = '[' :: ']' :: rest := by
        simp [renderJson, renderItems]
      rw [harg]
      simp [parseValue, skipWs, isWsChar]
  | .arr (e :: es), fuel, rest, hn, hf => by
    cases fuel with
    | zero => simp [renderJson] at hf
    | succ f =>
      have hni : numFreeItems (e :: es) = true := by simpa [numFree] using hn
      have hne : numFree e = true := by
        simp only [numFreeItems, Bool.and_eq_true] at hni
        exact hni.1
      have hni' : numFreeItems (e :: es) = true := by simpa [numFree] using hn
      have hfi : (renderItems (e :: es)).length < f := by
        simp only [renderJson, List.length_cons] at hf; omega
      have key := rtItems e es f rest hni' hfi
      obtain ⟨tl, htl⟩ := renderItems_cons e es
      obtain ⟨c, t, hj, hws, hbr, _⟩ := renderJson_head e hne
      have hhead : renderItems (e :: es) ++ rest = c :: (t ++ (tl ++ rest)) := by
        rw [htl, hj]; simp
      have key' : parseItemsF f (c :: (t ++ (tl ++ rest))) = some (e :: es, rest) := by
        rw [← hhead]; exact key
      have harg : renderJson (.arr (e :: es)) ++ rest
          = '[' :: (renderItems (e :: es) ++ rest) := by
        simp [renderJson]
      rw [harg, parseValue_bracket_step f (renderItems (e :: es) ++ rest), hhead,
        skipWs_cons_of_not c _ hws]
      simp [hbr, key']
  | .obj [], fuel, rest, _, hf => by
    cases fuel with
    | zero => simp [renderJson] at hf
    | succ f =>
      have harg : renderJson (.obj []) ++ rest = '{' :: '}' :: rest := by
        simp [renderJson, renderFields]
      rw [harg]
      simp [parseValue, skipWs, isWsChar]
  | .obj ((k, v) :: ms), fuel, rest, hn, hf => by
    cases fuel with
    | zero => simp [renderJson] at hf
    | succ f =>
      have hnm : numFreeFields ((k, v) :: ms) = true := by simpa [numFree] using hn
      have hfm : (renderFields ((k, v) :: ms)).length < f := by
        simp only [renderJson, List.length_cons] at hf; omega
      have key := rtFields (k, v) ms f rest hnm hfm
      have hhead : ∃ t, renderFields ((k, v) :: ms) ++ rest = '"' :: t := by
        cases ms with
        | nil =>
          exact ⟨escapeChars k.data ++ '"' :: ':' :: (renderJson v ++ '}' :: rest),
            by simp [renderFields, renderString]⟩
        | cons m ms' =>
          exact ⟨escapeChars k.data
              ++ '"' :: ':' :: (renderJson v ++ ',' :: (renderFields (m :: ms') ++ rest)),
            by simp [renderFields, renderString]⟩
      obtain ⟨t, ht⟩ := hhead
      have key' : parseFieldsF f ('"' :: t) = some ((k, v) :: ms, rest) := by
        rw [← ht]; exact key
      have harg : renderJson (.obj ((k, v) :: ms)) ++ rest
          = '{' :: (renderFields ((k, v) :: ms) ++ rest) := by
        simp [renderJson]
      rw [harg, parseValue_brace_step f (renderFields ((k, v) :: ms) ++ rest), ht,
        skipWs_cons_of_not '"' _ (by decide)]
      simp [key']
  termination_by j => sizeOf j

theorem rtItems : ∀ (j : Json) (js : List Json) (fuel : Nat) (rest : List Char),
    numFreeItems (j :: js) = true → (renderItems (j :: js)).length < fuel →
    parseItemsF fuel (renderItems (j :: js) ++ rest) = some (j :: js, rest)
  | j, [], fuel, rest, hn, hf => by
    cases fuel with
    | zero => exact absurd hf (Nat.not_lt_zero _)
    | succ f =>
      have hnj : numFree j = true := by
        simpa [numFreeItems, Bool.and_eq_true] using hn
      have hfj : (renderJson j).length < f := by
        have : renderItems [j] = renderJson j ++ [']'] := by simp [renderItems]
        rw [this, List.length_append] at hf
        simp at hf; omega
      have hv := rtValue j f (']' :: rest) hnj hfj
      have harg : renderItems [j] ++ rest = renderJson j ++ ']' :: rest := by
        simp [renderItems]
      rw [harg, parseItemsF_step, hv]
      simp [skipWs_cons_of_not ']' rest (by decide)]
  | j, x :: xs, fuel, rest, hn, hf => by
    cases fuel with
    | zero => exact absurd hf (Nat.not_lt_zero _)
    | succ f =>
      have hnj : numFree j = true ∧ numFreeItems (x :: xs) = true := by
        simpa [numFreeItems, Bool.and_eq_true] using hn
      have hlen : renderItems (j :: x :: xs) = renderJson j ++ ',' :: renderItems (x :: xs) := by
        simp [renderItems]
      rw [hlen, List.length_append, List.length_cons] at hf
      have hfj : (renderJson j).length < f := by omega
      have hfx : (renderItems (x :: xs)).length < f := by omega
      have hv := rtValue j f (',' :: (renderItems (x :: xs) ++ rest)) hnj.1 hfj
      have key := rtItems x xs f rest hnj.2 hfx
      have harg : renderItems (j :: x :: xs) ++ rest
          = renderJson j ++ ',' :: (renderItems (x :: xs) ++ rest) := by
        simp [renderItems]
      rw [harg, parseItemsF_step, hv]
      simp [skipWs_cons_of_not ',' _ (by decide), key]
  termination_by j js => sizeOf j + sizeOf js

theorem rtFields : ∀ (kv : String × Json) (ms : List (String × Json))
    (fuel : Nat) (rest : List Char),
    numFreeFields (kv :: ms) = true → (renderFields (kv :: ms)).length < fuel →
    parseFieldsF fuel (renderFields (kv :: ms) ++ rest) = some (kv :: ms, rest)
  | (k, v), [], fuel, rest, hn, hf => by
    cases fuel with
    | zero => exact absurd hf (Nat.not_lt_zero _)
    | succ f =>
      obtain ⟨kl⟩ := k
      have hnv : numFree v = true := by
        simpa [numFreeFields, Bool.and_eq_true] using hn
      have hlen : renderFields [(String.mk kl, v)]
          = renderString (String.mk kl) ++ ':' :: (renderJson v ++ ['}']) := by
        simp [renderFields]
      rw [hlen, List.length_append, List.length_cons, List.length_append] at hf
      have hfv : (renderJson v).length < f := by simp at hf; omega
      have hv := rtValue v f ('}' :: rest) hnv hfv
      have harg : renderFields [(String.mk kl, v)] ++ rest
          = '"' :: (escapeChars kl ++ '"' :: (':' :: (renderJson v ++ '}' :: rest))) := by
        simp [renderFields, renderString]
      rw [harg, parseFieldsF_step,
        skipWs_cons_of_not '"' _ (by decide)]
      simp only [parseStringBody_escapeChars]
      rw [show skipWs (':' :: (renderJson v ++ '}' :: rest))
            = ':' :: (renderJson v ++ '}' :: rest) from
          skipWs_cons_of_not ':' _ (by decide)]
      simp [hv, skipWs_cons_of_not '}' rest (by decide)]
  | (k, v), m :: ms', fuel, rest, hn, hf => by
    cases fuel with
    | zero => exact absurd hf (Nat.not_lt_zero _)
    | succ f =>
      obtain ⟨kl⟩ := k
      have hnv : numFree v = true ∧ numFreeFields (m :: ms') = true := by
        simpa [numFreeFields, Bool.and_eq_true] using hn
      have hlen : renderFields ((String.mk kl, v) :: m :: ms')
          = renderString (String.mk kl) ++ ':' :: (renderJson v ++ ',' :: renderFields (m :: ms')) := by
        simp [renderFields]
      rw [hlen, List.length_append, List.length_cons, List.length_append, List.length_cons] at hf
      have hfv : (renderJson v).length < f := by omega
      have hfm : (renderFields (m :: ms')).length < f := by omega
      have hv := rtValue v f (',' :: (renderFields (m :: ms') ++ rest)) hnv.1 hfv
      have key := rtFields m ms' f rest hnv.2 hfm
      have harg : renderFields ((String.mk kl, v) :: m :: ms') ++ rest
          = '"' :: (escapeChars kl
              ++ '"' :: (':' :: (renderJson v ++ ',' :: (renderFields (m :: ms') ++ rest)))) := by
        simp [renderFields, renderString]
      rw [harg, parseFieldsF_step,
        skipWs_cons_of_not '"' _ (by decide)]
      simp only [parseStringBody_escapeChars]
      rw [show skipWs (':' :: (renderJson v ++ ',' :: (renderFields (m :: ms') ++ rest)))
            = ':' :: (renderJson v ++ ',' :: (renderFields (m :: ms') ++ rest)) from
          skipWs_cons_of_not ':' _ (by decide)]
      simp [hv, skipWs_cons_of_not ',' _ (by decide), key]
  termination_by kv ms => sizeOf kv + sizeOf ms

end

/-- Parsing a rendered number-free value recovers it exactly. -/
theorem parseJson_strRender (j : Json) (h : numFree j = true) :
    parseJson (strRender j) = some j := by
  have hv := rtValue j ((renderJson j).length + 1) [] h (by omega)
  rw [List.append_nil] at hv
  simp only [parseJson, strRender, parseJsonChars]
  rw [hv]
  simp [skipWs]

/-! ## Model lemmas -/

theorem isEmpty_false_of_ne {α : Type} (l : List α) (h : l ≠ []) : l.isEmpty = false := by
  cases l with
  | nil => exact absurd rfl h
  | cons a as => rfl

/-- The error payload is the rendering of an object whose `error` member is
the message. -/
theorem parsedErrorField_errPayload (m : String) :
    parsedErrorField (errPayload m) = some (Json.str m) := by
  have h := parseJson_strRender (Json.obj [("error", Json.str m)])
    (by simp [numFree, numFreeFields])
  simp [parsedErrorField, errPayload, h, getField]

/-- A mandatory tool choice is not `"none"`. -/
theorem mandatory_not_none (tc : ToolChoice) (h : mandatoryChoice tc = true) :
    (tc == ToolChoice.none) = false := by
  cases tc <;> simp_all [mandatoryChoice]

/-- A mandatory choice over declared tools activates the tool flow. -/
theorem shouldUse_of_mandatory (tools : List ToolFunction) (tc : ToolChoice)
    (hm : mandatoryChoice tc = true) (ht : tools ≠ []) :
    shouldUseFunctionCalling tools tc = true := by
  cases tools with
  | nil => exact absurd rfl ht
  | cons t ts => simp [shouldUseFunctionCalling, mandatory_not_none tc hm]

/-- Under a mandatory choice with declared tools, synthesis yields a call. -/
theorem synthesize_mandatory_some (req : ChatCompletionRequest) (ts : Nat)
    (hm : mandatoryChoice req.toolChoice = true) (ht : req.tools ≠ []) :
    ∃ c, synthesizeToolCall req ts = some c := by
  have h : (synthesizeToolCall req ts).isSome = true := by
    cases hc : req.toolChoice with
    | auto => rw [hc] at hm; simp [mandatoryChoice] at hm
    | none => rw [hc] at hm; simp [mandatoryChoice] at hm
    | fn name => simp [synthesizeToolCall, hc]
    | required =>
      cases htl : req.tools with
      | nil => exact absurd htl ht
      | cons t ts' => simp [synthesizeToolCall, hc, htl, selectTool]
  exact Option.isSome_iff_exists.mp h

/-- Assembly with calls: null content, the calls, finish `tool_calls`. -/
theorem assemble_calls_of_ne (text : String) (tr : Bool) (calls : List ToolCall)
    (h : calls ≠ []) :
    assembleCompletion text tr calls = ⟨⟨Option.none, calls⟩, FinishReason.toolCalls⟩ := by
  cases calls with
  | nil => exact absurd rfl h
  | cons c cs => simp [assembleCompletion]

/-- The tool flow under a mandatory choice with declared tools always carries
a call. -/
theorem runToolFlow_mandatory_calls (req : ChatCompletionRequest) (text : String)
    (tr : Bool) (ts : Nat) (hm : mandatoryChoice req.toolChoice = true)
    (ht : req.tools ≠ []) :
    (runToolFlow req text tr ts).message.tool_calls ≠ [] := by
  simp only [runToolFlow]
  by_cases hc : (extractFunctionCalls text ts).isEmpty
  · obtain ⟨c, hsy⟩ := synthesize_mandatory_some req ts hm ht
    rw [if_pos (by simp [hc, hm]), hsy,
      assemble_calls_of_ne text tr [c] (by simp)]
    simp
  · have hne : extractFunctionCalls text ts ≠ [] := by
      intro h0; rw [h0] at hc; exact hc rfl
    rw [if_neg (by simp [hc]), assemble_calls_of_ne text tr _ hne]
    simpa using hne

/-- Every successful completion is an assembly whose truncation flag is the
backend's. -/
theorem createChatCompletion_ok_shape (req : ChatCompletionRequest)
    (backend : BackendResult) (ts : Nat) (comp : ChatCompletion)
    (h : createChatCompletion req backend ts = Except.ok comp) :
    ∃ text calls, comp = assembleCompletion text (backendTruncated backend) calls := by
  cases backend with
  | ok text tr =>
    by_cases hu : shouldUseFunctionCalling req.tools req.toolChoice = true
    · rw [createChatCompletion, if_pos hu] at h
      exact ⟨text,
        (if (extractFunctionCalls text ts).isEmpty && mandatoryChoice req.toolChoice then
          match synthesizeToolCall req ts with
          | some c => [c]
          | Option.none => extractFunctionCalls text ts
        else extractFunctionCalls text ts),
        by rw [← Except.ok.inj h]; rfl⟩
    · rw [createChatCompletion, if_neg hu] at h
      exact ⟨text, [], by rw [← Except.ok.inj h]; rfl⟩
  | fail msg =>
    by_cases hu : (shouldUseFunctionCalling req.tools req.toolChoice
        && mandatoryChoice req.toolChoice) = true
    · rw [createChatCompletion, if_pos hu] at h
      exact ⟨"",
        (if (extractFunctionCalls "" ts).isEmpty && mandatoryChoice req.toolChoice then
          match synthesizeToolCall req ts with
          | some c => [c]
          | Option.none => extractFunctionCalls "" ts
        else extractFunctionCalls "" ts),
        by rw [← Except.ok.inj h]; rfl⟩
    · rw [createChatCompletion, if_neg hu] at h
      exact absurd h (by simp)

/-- Concatenating the split pieces restores the characters. -/
theorem chunkSplit_join (cs : List Char) : ∀ acc : List Char,
    (chunkSplit cs acc).foldr (fun p a => p ++ a) [] = acc.reverse ++ cs := by
  induction cs with
  | nil =>
    intro acc
    cases acc with
    | nil => simp [chunkSplit]
    | cons a as => simp [chunkSplit]
  | cons c cs ih =>
    intro acc
    by_cases h : c = ' '
    · subst h
      rw [show chunkSplit (' ' :: cs) acc = (' ' :: acc).reverse :: chunkSplit cs [] from by
        simp [chunkSplit]]
      rw [List.foldr_cons, ih []]
      simp
    · rw [show chunkSplit (c :: cs) acc = chunkSplit cs (c :: acc) from by
        simp [chunkSplit, h]]
      rw [ih (c :: acc)]
      simp

/-- One event's contribution to the content concatenation. -/
theorem streamContentChars_cons (e : StreamEvent) (l : List StreamEvent) :
    streamContentChars (e :: l)
      = (match e with
         | .data ch => (ch.delta.content.getD "").data ++ streamContentChars l
         | .done => streamContentChars l) := rfl

/-- Content concatenation distributes over event-list append. -/
theorem streamContentChars_append (l1 l2 : List StreamEvent) :
    streamContentChars (l1 ++ l2) = streamContentChars l1 ++ streamContentChars l2 := by
  induction l1 with
  | nil => rfl
  | cons e l ih =>
    cases e with
    | data ch => simp only [List.cons_append, streamContentChars_cons, ih, List.append_assoc]
    | done => simp only [List.cons_append, streamContentChars_cons, ih]

/-- The content chunks of a string concatenate back to it. -/
theorem streamContentChars_pieces (s : String) :
    streamContentChars ((chunkPieces s).map
      (fun p => StreamEvent.data ⟨⟨Option.none, some p, []⟩, Option.none⟩)) = s.data := by
  have h := chunkSplit_join s.data []
  simp only [List.reverse_nil, List.nil_append] at h
  have hfold : streamContentChars ((chunkPieces s).map
      (fun p => StreamEvent.data ⟨⟨Option.none, some p, []⟩, Option.none⟩))
      = (chunkSplit s.data []).foldr (fun p a => p ++ a) [] := by
    simp only [chunkPieces, List.map_map]
    induction chunkSplit s.data [] with
    | nil => rfl
    | cons p ps ih =>
      simp only [List.map_cons, streamContentChars_cons, List.foldr_cons, ih]
      rfl
  rw [hfold, h]

/-- Normalization preserves positions: the `i`-th output is the `i`-th entry
normalized with index `k + i`. -/
theorem normalizeEntries_get (ts : Nat) : ∀ (entries : List Json) (k i : Nat),
    (normalizeEntries ts k entries)[i]? = (entries[i]?).map (normalizeEntry ts (k + i)) := by
  intro entries
  induction entries with
  | nil => intro k i; simp [normalizeEntries]
  | cons e es ih =>
    intro k i
    cases i with
    | zero => simp [normalizeEntries]
    | succ n =>
      simp only [normalizeEntries, List.getElem?_cons_succ, ih (k + 1) n]
      rw [show k + 1 + n = k + (n + 1) from by omega]

/-- Normalization preserves length. -/
theorem normalizeEntries_length (ts : Nat) : ∀ (k : Nat) (entries : List Json),
    (normalizeEntries ts k entries).length = entries.length := by
  intro k entries
  induction entries generalizing k with
  | nil => simp [normalizeEntries]
  | cons e es ih => simp [normalizeEntries, ih]

/-- The serialized payload is number-free. -/
theorem numFree_payload (calls : List ToolCall) :
    numFree (toolCallsPayload calls) = true := by
  have hitems : ∀ cs : List ToolCall, numFreeItems (cs.map toolCallJson) = true := by
    intro cs
    induction cs with
    | nil => simp [numFreeItems]
    | cons c cs ih =>
      simp [toolCallJson, numFree, numFreeItems, numFreeFields, ih]
  simp [toolCallsPayload, numFree, numFreeFields, numFreeItems, hitems]

/-- Normalizing a serialized call recovers it. -/
theorem normalizeEntry_toolCallJson (ts k : Nat) (c : ToolCall) :
    normalizeEntry ts k (toolCallJson c) = c := by
  cases c with
  | mk id name args =>
    simp [normalizeEntry, toolCallJson, objFieldsOf, fnFieldsOf, getField]

/-- Normalizing the serialized entries recovers the call list. -/
theorem normalizeEntries_map (ts : Nat) : ∀ (calls : List ToolCall) (k : Nat),
    normalizeEntries ts k (calls.map toolCallJson) = calls := by
  intro calls
  induction calls with
  | nil => intro k; simp [normalizeEntries]
  | cons c cs ih =>
    intro k
    simp [normalizeEntries, normalizeEntry_toolCallJson, ih]

/-- What the fold of `selectTool` guarantees: the result is the seed or a
candidate, it weakly dominates the seed and every candidate, and nothing
strictly better than the seed means the seed survives. -/
theorem pickBest_spec (msg : String) : ∀ (ts : List ToolFunction) (b : ToolFunction),
    (pickBest msg b ts = b ∨ pickBest msg b ts ∈ ts)
  ∧ scoreTool b msg ≤ scoreTool (pickBest msg b ts) msg
  ∧ (∀ u ∈ ts, scoreTool u msg ≤ scoreTool (pickBest msg b ts) msg)
  ∧ ((∀ u ∈ ts, scoreTool u msg ≤ scoreTool b msg) → pickBest msg b ts = b) := by
  intro ts
  induction ts with
  | nil =>
    intro b
    refine ⟨Or.inl rfl, Nat.le_refl _, ?_, fun _ => rfl⟩
    intro u hu
    exact absurd hu (List.not_mem_nil u)
  | cons u us ih =>
    intro b
    have hstep : pickBest msg b (u :: us)
        = pickBest msg (if scoreTool b msg < scoreTool u msg then u else b) us := rfl
    by_cases hlt : scoreTool b msg < scoreTool u msg
    · rw [hstep, if_pos hlt]
      obtain ⟨hmem, hle, hall, htie⟩ := ih u
      refine ⟨?_, ?_, ?_, ?_⟩
      · cases hmem with
        | inl h => exact Or.inr (by rw [h]; exact List.mem_cons_self u us)
        | inr h => exact Or.inr (List.mem_cons_of_mem u h)
      · exact Nat.le_trans (Nat.le_of_lt hlt) hle
      · intro t htm
        cases htm with
        | head => exact hle
        | tail _ h => exact hall t h
      · intro hallb
        exact absurd (hallb u (List.mem_cons_self u us)) (Nat.not_le.mpr hlt)
    · rw [hstep, if_neg hlt]
      obtain ⟨hmem, hle, hall, htie⟩ := ih b
      refine ⟨?_, hle, ?_, ?_⟩
      · cases hmem with
        | inl h => exact Or.inl h
        | inr h => exact Or.inr (List.mem_cons_of_mem u h)
      · intro t htm
        cases htm with
        | head => exact Nat.le_trans (Nat.not_lt.mp hlt) hle
        | tail _ h => exact hall t h
      · intro hallb
        exact htie (fun t ht => hallb t (List.mem_cons_of_mem u ht))

/-- Assembly of no calls: the text as content and a stop/length finish. -/
theorem assemble_nil (text : String) (tr : Bool) :
    assembleCompletion text tr []
      = ⟨⟨some text, []⟩, if tr then FinishReason.length else FinishReason.stop⟩ := by
  simp [assembleCompletion]

/-- A successful completion that carries tool calls has null content. -/
theorem ok_content_none_of_calls (req : ChatCompletionRequest) (backend : BackendResult)
    (ts : Nat) (comp : ChatCompletion)
    (h : createChatCompletion req backend ts = Except.ok comp)
    (hne : comp.message.tool_calls ≠ []) : comp.message.content = Option.none := by
  obtain ⟨text, calls, hcomp⟩ := createChatCompletion_ok_shape req backend ts comp h
  subst hcomp
  by_cases hc : calls = []
  · subst hc
    simp [assembleCompletion] at hne
  · rw [assemble_calls_of_ne text _ calls hc]

/-- Concatenating the stream's content fragments gives the completed content
(null content for a tool-call stream concatenates to the empty string). -/
theorem streamContentChars_buildStream (comp : ChatCompletion)
    (hcontent : comp.message.tool_calls ≠ [] → comp.message.content = Option.none) :
    streamContentChars (buildStream comp) = (comp.message.content.getD "").data := by
  rw [buildStream, streamContentChars_cons]
  by_cases hc : comp.message.tool_calls.isEmpty
  · rw [streamContentChars_append]
    rw [show bodyChunks comp = (chunkPieces (comp.message.content.getD "")).map
        (fun p => StreamEvent.data ⟨⟨Option.none, some p, []⟩, Option.none⟩) from by
      simp [bodyChunks, hc]]
    rw [streamContentChars_pieces]
    simp [roleChunk, finishChunk, streamContentChars]
  · have hnone : comp.message.content = Option.none := by
      apply hcontent
      intro h0
      rw [h0] at hc
      exact hc rfl
    rw [streamContentChars_append]
    rw [show bodyChunks comp
        = [StreamEvent.data ⟨⟨Option.none, Option.none, comp.message.tool_calls⟩,
            Option.none⟩] from by
      simp [bodyChunks, hc]]
    simp [roleChunk, finishChunk, streamContentChars, hnone]

/-! ## Concrete evaluations

Sample runs of the model at the test suites' inputs, each closed and proved
by reduction. -/

set_option maxRecDepth 16384

theorem eval_toolChoiceNone :
    createChatCompletion
      ⟨[⟨Role.user, some "Hello"⟩], [timeToolSample, calcToolSample], ToolChoice.none⟩
      (BackendResult.ok "Hello! How can I help you today?" false) 3
    = Except.ok ⟨⟨some "Hello! How can I help you today?", []⟩, FinishReason.stop⟩ := rfl

theorem eval_requiredEmptyBackend :
    createChatCompletion requiredRequestSample (BackendResult.ok "" false) 3
      = Except.ok requiredComp3 := rfl

theorem eval_backendErrorPropagates :
    createChatCompletion ⟨[⟨Role.user, some "Test"⟩], [], ToolChoice.auto⟩
      (BackendResult.fail "Rate limited. Retry after 60000ms. Status: 429") 5
    = Except.error "Rate limited. Retry after 60000ms. Status: 429" := rfl

theorem eval_executeUnknownFunction :
    executeFunctionCall ⟨"call_1", "nonexistent", "\x7b\x7d"⟩ []
      = "\x7b\"error\":\"Function 'nonexistent' not found\"\x7d" := rfl

theorem eval_executePassthrough :
    executeFunctionCall ⟨"call_1", "greet", "\x7b\"name\": \"World\"\x7d"⟩ registrySample
      = "Hello World!" := rfl

theorem eval_roundtripSample :
    extractFunctionCalls (serializeToolCalls roundtripCallsSample) 9
      = roundtripCallsSample := rfl

/-! ## The claims -/

/-- Claim C1: every assembled chat completion respects the tool-choice
policy — under `tool_choice = "none"` the assembled message never carries
tool calls, whatever the backend returned; under `"required"` or a named
function (with at least one declared tool, which fallback selection needs)
the assembled message carries at least one call, synthesized by fallback if
necessary, even for empty backend text or a backend failure. -/
theorem toolChoicePolicy (req : ChatCompletionRequest) (backend : BackendResult) (ts : Nat) :
    (req.toolChoice = ToolChoice.none →
      okNoCalls (createChatCompletion req backend ts) = true)
  ∧ (mandatoryChoice req.toolChoice = true → req.tools ≠ [] →
      okHasCalls (createChatCompletion req backend ts) = true) := by
  constructor
  · intro hn
    have hsu : shouldUseFunctionCalling req.tools req.toolChoice = false := by
      simp [shouldUseFunctionCalling, hn]
    cases backend with
    | ok text tr => simp [createChatCompletion, hsu, okNoCalls, assembleCompletion]
    | fail msg =>
      rw [createChatCompletion, if_neg (by simp [hsu])]
      rfl
  · intro hm ht
    have hsu := shouldUse_of_mandatory req.tools req.toolChoice hm ht
    have hr : ∀ text tr, okHasCalls (Except.ok (runToolFlow req text tr ts)) = true := by
      intro text tr
      have hne := runToolFlow_mandatory_calls req text tr ts hm ht
      simp [okHasCalls, isEmpty_false_of_ne _ hne]
    cases backend with
    | ok text tr =>
      rw [createChatCompletion, if_pos hsu]
      exact hr text tr
    | fail msg =>
      rw [createChatCompletion, if_pos (by simp [hsu, hm])]
      exact hr "" false

/-- Claim C1 witness: at the required-choice sample request with empty
backend text, the assembled completion carries a tool call. -/
theorem toolChoicePolicy_witness :
    mandatoryChoice requiredRequestSample.toolChoice = true
  ∧ requiredRequestSample.tools ≠ []
  ∧ okHasCalls (createChatCompletion requiredRequestSample (BackendResult.ok "" false) 3)
      = true :=
  ⟨rfl, by decide,
    (toolChoicePolicy requiredRequestSample (BackendResult.ok "" false) 3).2 rfl (by decide)⟩

/-- Claim C2 (amended): for any text that fails strict JSON parsing but
contains the literal `"tool_calls"`-then-`[` marker, `detectFunctionCalls`
is true (and both functions are total Lean functions, so no exception can
arise); `extractFunctionCalls` is empty unless the narrow single-pair
fallback pattern also matches, in which case it is exactly that one call. -/
theorem detectExtract_truncated (text : String) (ts : Nat)
    (hparse : parseJson text = Option.none)
    (hmark : hasToolCallsMarker text.data = true) :
    detectFunctionCalls text = true
  ∧ (fallbackScan ts text.data = Option.none → extractFunctionCalls text ts = [])
  ∧ (∀ c, fallbackScan ts text.data = some c → extractFunctionCalls text ts = [c]) := by
  refine ⟨by simp [detectFunctionCalls, hparse, hmark], ?_, ?_⟩
  · intro hf
    simp [extractFunctionCalls, hparse, hf]
  · intro c hf
    simp [extractFunctionCalls, hparse, hf]

/-- Claim C2 witness: the repository's truncated-JSON test input — detection
fires and extraction is empty. -/
theorem detectExtract_truncated_witness :
    parseJson truncatedSample = Option.none
  ∧ hasToolCallsMarker truncatedSample.data = true
  ∧ (detectFunctionCalls truncatedSample = true
    ∧ (fallbackScan 7 truncatedSample.data = Option.none →
        extractFunctionCalls truncatedSample 7 = [])
    ∧ (∀ c, fallbackScan 7 truncatedSample.data = some c →
        extractFunctionCalls truncatedSample 7 = [c])) :=
  ⟨rfl, rfl, detectExtract_truncated truncatedSample 7 rfl rfl⟩

/-- Claim C2 counterexample: invalid JSON containing the `"tool_calls"`
marker on which extraction is NOT empty — the narrow fallback pattern
matches, so the claimed "empty sequence" fails as stated. -/
theorem detectExtract_truncated_counterexample :
    parseJson fallbackMatchSample = Option.none
  ∧ hasToolCallsMarker fallbackMatchSample.data = true
  ∧ detectFunctionCalls fallbackMatchSample = true
  ∧ extractFunctionCalls fallbackMatchSample 0 ≠ [] :=
  ⟨rfl, rfl, rfl, by decide⟩

/-- Claim C3: `executeFunctionCall` is a total function of the call and the
registry (so it never raises); an unknown name, unparseable arguments, a
thrown `Error` and a thrown non-`Error` value each resolve to a string whose
parsed JSON form carries an `error` member (the non-`Error` one saying
"Unknown error"); a string result passes through verbatim and a non-string
result is JSON-stringified. -/
theorem executeFunctionCall_spec (call : ToolCall) (reg : FunctionRegistry) :
    (lookupFn reg call.name = Option.none →
      parsedErrorField (executeFunctionCall call reg)
        = some (Json.str ("Function '" ++ call.name ++ "' not found")))
  ∧ (∀ impl, lookupFn reg call.name = some impl →
      (parseJson call.arguments = Option.none →
        parsedErrorField (executeFunctionCall call reg)
          = some (Json.str "Error executing function: invalid JSON in arguments"))
    ∧ (∀ args, parseJson call.arguments = some args →
        (∀ m, impl args = FnOutcome.throwErr m →
          parsedErrorField (executeFunctionCall call reg) = some (Json.str m))
      ∧ (impl args = FnOutcome.throwRaw →
          parsedErrorField (executeFunctionCall call reg) = some (Json.str "Unknown error"))
      ∧ (∀ s, impl args = FnOutcome.retStr s → executeFunctionCall call reg = s)
      ∧ (∀ j, impl args = FnOutcome.retVal j →
          executeFunctionCall call reg = strRender j))) := by
  constructor
  · intro hl
    simp [executeFunctionCall, hl, parsedErrorField_errPayload]
  · intro impl hl
    constructor
    · intro hp
      simp [executeFunctionCall, hl, hp, parsedErrorField_errPayload]
    · intro args hp
      refine ⟨?_, ?_, ?_, ?_⟩
      · intro m hm
        simp [executeFunctionCall, hl, hp, hm, parsedErrorField_errPayload]
      · intro hm
        simp [executeFunctionCall, hl, hp, hm, parsedErrorField_errPayload]
      · intro s hm
        simp [executeFunctionCall, hl, hp, hm]
      · intro j hm
        simp [executeFunctionCall, hl, hp, hm]

/-- Claim C4: when the backend chat call throws under a policy that mandates
a call (and a tool is declared for fallback to target), the failure is
suppressed and a synthesized call makes the completion succeed; when no call
is mandated, the backend error is propagated verbatim to the caller. -/
theorem backendFailurePolicy (req : ChatCompletionRequest) (msg : String) (ts : Nat) :
    (mandatoryChoice req.toolChoice = true → req.tools ≠ [] →
      okHasCalls (createChatCompletion req (BackendResult.fail msg) ts) = true)
  ∧ (mandatoryChoice req.toolChoice = false →
      createChatCompletion req (BackendResult.fail msg) ts = Except.error msg) := by
  constructor
  · intro hm ht
    exact (toolChoicePolicy req (BackendResult.fail msg) ts).2 hm ht
  · intro hm
    rw [createChatCompletion, if_neg (by simp [hm])]

/-- Claim C4 witness: a mandated call suppresses the failure at the sample
request; with no tool mandated the same failure propagates. -/
theorem backendFailurePolicy_witness :
    (mandatoryChoice requiredRequestSample.toolChoice = true
      ∧ requiredRequestSample.tools ≠ []
      ∧ okHasCalls (createChatCompletion requiredRequestSample
          (BackendResult.fail "429 Too Many Requests") 4) = true)
  ∧ (mandatoryChoice plainRequestSample.toolChoice = false
      ∧ createChatCompletion plainRequestSample
          (BackendResult.fail "Network error") 4 = Except.error "Network error") :=
  ⟨⟨rfl, by decide,
      (backendFailurePolicy requiredRequestSample "429 Too Many Requests" 4).1 rfl (by decide)⟩,
    ⟨rfl, (backendFailurePolicy plainRequestSample "Network error" 4).2 rfl⟩⟩

/-- Claim C5: the streamed response is equivalent to the non-streaming one —
the stream exists exactly when the completion does, concatenating its
`delta.content` fragments in emission order reproduces the non-streaming
content, the first chunk carries `delta.role = "assistant"`, the final data
chunk carries the finish reason with an empty delta, and the `[DONE]`
sentinel ends the stream. -/
theorem streamEquiv (req : ChatCompletionRequest) (backend : BackendResult) (ts : Nat)
    (comp : ChatCompletion)
    (h : createChatCompletion req backend ts = Except.ok comp) :
    ∃ evs, createChatCompletionStream req backend ts = Except.ok evs
      ∧ streamContentChars evs = (comp.message.content.getD "").data
      ∧ evs.head? = some roleChunk
      ∧ ∃ pre, evs = pre ++ [finishChunk comp.finish_reason, StreamEvent.done] := by
  refine ⟨buildStream comp, by simp [createChatCompletionStream, h, Except.map], ?_, ?_, ?_⟩
  · exact streamContentChars_buildStream comp (ok_content_none_of_calls req backend ts comp h)
  · simp [buildStream]
  · exact ⟨roleChunk :: bodyChunks comp, by simp [buildStream]⟩

/-- Claim C5 witness: at the plain sample request, the stream's content
fragments concatenate back to the completed content. -/
theorem streamEquiv_witness :
    createChatCompletion plainRequestSample (BackendResult.ok "Hello there friend" false) 5
      = Except.ok plainCompSample
  ∧ (∃ evs, createChatCompletionStream plainRequestSample
        (BackendResult.ok "Hello there friend" false) 5 = Except.ok evs
      ∧ streamContentChars evs = (plainCompSample.message.content.getD "").data
      ∧ evs.head? = some roleChunk
      ∧ ∃ pre, evs = pre
          ++ [finishChunk plainCompSample.finish_reason, StreamEvent.done]) :=
  ⟨rfl, streamEquiv plainRequestSample (BackendResult.ok "Hello there friend" false) 5
    plainCompSample rfl⟩

/-- Claim C6: for every assembled completion, `finish_reason` is
`"tool_calls"` exactly when the message carries a non-empty `tool_calls`
array; a message with tool calls has null content; and a message without
them finishes with `"stop"`, or `"length"` when the backend signalled
truncation. -/
theorem finishReasonIff (req : ChatCompletionRequest) (backend : BackendResult) (ts : Nat)
    (comp : ChatCompletion)
    (h : createChatCompletion req backend ts = Except.ok comp) :
    (comp.finish_reason = FinishReason.toolCalls ↔ comp.message.tool_calls ≠ [])
  ∧ (comp.message.tool_calls ≠ [] → comp.message.content = Option.none)
  ∧ (comp.message.tool_calls = [] →
      comp.finish_reason
        = if backendTruncated backend then FinishReason.length else FinishReason.stop) := by
  obtain ⟨text, calls, hcomp⟩ := createChatCompletion_ok_shape req backend ts comp h
  subst hcomp
  by_cases hc : calls = []
  · subst hc
    simp only [assembleCompletion, List.isEmpty_nil, if_pos rfl]
    cases backendTruncated backend <;> simp
  · rw [assemble_calls_of_ne text _ calls hc]
    simp [hc]

/-- Claim C6 witness: the required-choice sample's completion carries calls
and finishes with `tool_calls`. -/
theorem finishReasonIff_witness :
    createChatCompletion requiredRequestSample (BackendResult.ok "" false) 3
      = Except.ok requiredComp3
  ∧ (requiredComp3.finish_reason = FinishReason.toolCalls
      ↔ requiredComp3.message.tool_calls ≠ []) :=
  ⟨rfl,
    (finishReasonIff requiredRequestSample (BackendResult.ok "" false) 3 requiredComp3 rfl).1⟩

/-- Claim C7: on a strict-JSON input carrying a `tool_calls` array,
extraction normalizes every entry — output length equals entry count; a
present string `id` is kept; a missing `id` becomes
`call_<timestamp>_<index>` with the entry's index; string `arguments` pass
through unchanged and object `arguments` are JSON-stringified. -/
theorem extractNormalizes (text : String) (ts : Nat) (ms : List (String × Json))
    (entries : List Json)
    (hp : parseJson text = some (Json.obj ms))
    (hm : getField ms "tool_calls" = some (Json.arr entries)) :
    extractFunctionCalls text ts = normalizeEntries ts 0 entries
  ∧ (extractFunctionCalls text ts).length = entries.length
  ∧ (∀ (i : Nat) (e : Json), entries[i]? = some e →
      ∃ c : ToolCall, (extractFunctionCalls text ts)[i]? = some c
        ∧ (∀ s, getField (objFieldsOf e) "id" = some (Json.str s) → c.id = s)
        ∧ (getField (objFieldsOf e) "id" = Option.none →
            c.id = "call_" ++ toString ts ++ "_" ++ toString i)
        ∧ (∀ s, getField (fnFieldsOf e) "arguments" = some (Json.str s) →
            c.arguments = s)
        ∧ (∀ fms, getField (fnFieldsOf e) "arguments" = some (Json.obj fms) →
            c.arguments = strRender (Json.obj fms))) := by
  have hex : extractFunctionCalls text ts = normalizeEntries ts 0 entries := by
    simp [extractFunctionCalls, hp, toolCallsOf, hm]
  refine ⟨hex, by rw [hex, normalizeEntries_length], ?_⟩
  intro i e he
  refine ⟨normalizeEntry ts i e, ?_, ?_, ?_, ?_, ?_⟩
  · rw [hex, normalizeEntries_get]
    simp [he]
  · intro s hs
    simp [normalizeEntry, hs]
  · intro hs
    simp [normalizeEntry, hs]
  · intro s hs
    simp [normalizeEntry, hs]
  · intro fms hs
    simp [normalizeEntry, hs]

/-- Claim C7 witness: the missing-id, object-arguments sample — extraction
equals entrywise normalization at timestamp 7. -/
theorem extractNormalizes_witness :
    parseJson normalizeSample = some (Json.obj normalizeSampleFields)
  ∧ getField normalizeSampleFields "tool_calls" = some (Json.arr normalizeSampleEntries)
  ∧ extractFunctionCalls normalizeSample 7 = normalizeEntries 7 0 normalizeSampleEntries :=
  ⟨rfl, rfl,
    (extractNormalizes normalizeSample 7 normalizeSampleFields normalizeSampleEntries
      rfl rfl).1⟩

/-- Claim C8: under `tool_choice = "required"` the fallback synthesizer picks
a declared tool that maximizes the keyword-overlap score against the latest
user message, the first declared tool winning ties and the no-match case;
and at the spec's concrete scenario — tool set `[calculate]`, message
`Calculate 15 * 8 + 42`, empty backend text — the synthesized call is to
`calculate` with arguments `\x7b"expression":"15 * 8"\x7d`, the first
arithmetic sub-expression. -/
theorem fallbackSelection :
    (∀ (t0 : ToolFunction) (rest : List ToolFunction) (msg : String),
      ∃ best, selectTool (t0 :: rest) msg = some best
        ∧ (best = t0 ∨ best ∈ rest)
        ∧ (∀ u ∈ t0 :: rest, scoreTool u msg ≤ scoreTool best msg)
        ∧ ((∀ u ∈ rest, scoreTool u msg ≤ scoreTool t0 msg) → best = t0))
  ∧ createChatCompletion calcScenarioRequest (BackendResult.ok "" false) 5
      = Except.ok ⟨⟨Option.none, [calcScenarioCall]⟩, FinishReason.toolCalls⟩ := by
  constructor
  · intro t0 rest msg
    obtain ⟨hmem, hle, hall, htie⟩ := pickBest_spec msg rest t0
    refine ⟨pickBest msg t0 rest, rfl, hmem, ?_, htie⟩
    intro u hu
    cases hu with
    | head => exact hle
    | tail _ h => exact hall u h
  · rfl

/-- Claim C9: round-trip — serializing any list of tool calls into a
`tool_calls` JSON payload and re-extracting recovers exactly the same ids,
names and JSON-string arguments, in the original order. -/
theorem roundtripToolCalls (calls : List ToolCall) (ts : Nat) :
    extractFunctionCalls (serializeToolCalls calls) ts = calls := by
  have hp : parseJson (serializeToolCalls calls) = some (toolCallsPayload calls) :=
    parseJson_strRender (toolCallsPayload calls) (numFree_payload calls)
  simp only [extractFunctionCalls]
  rw [hp]
  simp [toolCallsOf, toolCallsPayload, getField, normalizeEntries_map]

/-- Claim C10: a specific-function `tool_choice` naming a function that is
not among the declared tools still yields a completion with finish reason
`tool_calls` and exactly one synthesized call carrying the requested name —
the name's existence is not validated at assembly time. -/
theorem namedChoiceSynthesis (req : ChatCompletionRequest) (name text : String)
    (tr : Bool) (ts : Nat)
    (hchoice : req.toolChoice = ToolChoice.fn name)
    (htools : req.tools ≠ [])
    (hnotin : ∀ t ∈ req.tools, t.name ≠ name)
    (hnone : extractFunctionCalls text ts = []) :
    ∃ args, createChatCompletion req (BackendResult.ok text tr) ts
      = Except.ok ⟨⟨Option.none, [⟨fallbackCallId ts, name, args⟩]⟩,
          FinishReason.toolCalls⟩ := by
  have hm : mandatoryChoice req.toolChoice = true := by simp [hchoice, mandatoryChoice]
  have hsu := shouldUse_of_mandatory req.tools req.toolChoice hm htools
  refine ⟨(match findTool req.tools name with
    | some t => synthesizeArgs t (lastUserContent req.messages)
    | Option.none => strRender (Json.obj [])), ?_⟩
  rw [createChatCompletion, if_pos hsu]
  simp only [runToolFlow, hnone, List.isEmpty_nil, hm, Bool.and_self, if_pos rfl]
  rw [show synthesizeToolCall req ts = some ⟨fallbackCallId ts, name,
      (match findTool req.tools name with
        | some t => synthesizeArgs t (lastUserContent req.messages)
        | Option.none => strRender (Json.obj []))⟩ from by
    simp [synthesizeToolCall, hchoice]]
  rw [assemble_calls_of_ne text tr _ (by simp)]
  simp

/-- Claim C10 witness: the test's `non_existent_function` choice over the
sample tools — the backend's plain text yields no extraction, yet the
completion carries exactly the requested call. -/
theorem namedChoiceSynthesis_witness :
    namedChoiceRequestSample.toolChoice = ToolChoice.fn "non_existent_function"
  ∧ namedChoiceRequestSample.tools ≠ []
  ∧ (∀ t ∈ namedChoiceRequestSample.tools, t.name ≠ "non_existent_function")
  ∧ extractFunctionCalls "I need help with that." 5 = []
  ∧ (∃ args, createChatCompletion namedChoiceRequestSample
        (BackendResult.ok "I need help with that." false) 5
      = Except.ok ⟨⟨Option.none, [⟨fallbackCallId 5, "non_existent_function", args⟩]⟩,
          FinishReason.toolCalls⟩) :=
  ⟨rfl, by decide, by decide, rfl,
    namedChoiceSynthesis namedChoiceRequestSample "non_existent_function"
      "I need help with that." false 5 rfl (by decide) (by decide) rfl⟩

end Duckai
